import Mathlib

/-!
Verification of the schema compiler and dispatcher of `py_shell_creator`
(`src/py_shell_creator/api.py`).

The embedding models:
- JSON-shaped values (`Json`) with Python's insertion-ordered dicts as
  association lists;
- the type descriptors accepted by `create_schema_object_from_annotation`
  (`TypeDesc`): primitives, `NoneType`, records (annotation dicts), `List[...]`,
  `Union[...]`, `Literal[...]` and `Annotated[...]`;
- the recursive compiler `create_schema_object_from_annotation` itself,
  returning `Option ((schema, required))` where `none` models a raised
  exception (`ValueError`, `KeyError`, `AttributeError`, `TypeError`);
- `ShellFunctionDescriptor.get_args_json_schema`'s default-value patching and
  `has_args`;
- the two dispatch paths: `WebService.flask_app`'s endpoint body and
  `CommandLineApp.exec`'s `json_or_json_file` + invocation step.
-/

namespace PyShellCreator

/-- JSON-shaped Python values. Dicts keep insertion order, as Python dicts do. -/
inductive Json where
  | null : Json
  | bool : Bool → Json
  | num : Int → Json
  | str : String → Json
  | arr : List Json → Json
  | obj : List (String × Json) → Json

/-- Base types that are keys of `type_dict_` in
`create_schema_object_from_annotation` (api.py line 33). -/
inductive Prim where
  | str : Prim
  | int : Prim
  | float : Prim
  | bool : Prim
deriving DecidableEq

/-- Annotations handled by `create_schema_object_from_annotation`:
a record is an annotation dict (or a class exposing one), `noneType` is
`type(None)`, `seq` is `List[...]`, `union` is `Union[...]`, `literal` is
`Literal[...]` and `annotated` is `Annotated[base, metadata_dict]`. -/
inductive TypeDesc where
  | prim : Prim → TypeDesc
  | noneType : TypeDesc
  | record : List (String × TypeDesc) → TypeDesc
  | seq : TypeDesc → TypeDesc
  | union : List TypeDesc → TypeDesc
  | literal : List Json → TypeDesc
  | annotated : TypeDesc → List (String × Json) → TypeDesc

/-- Python dict assignment `d[k] = v`: overwrite in place when the key is
present (its position is kept), append otherwise. -/
def setKey : List (String × Json) → String → Json → List (String × Json)
  | [], k, v => [(k, v)]
  | (k', v') :: rest, k, v =>
      if k' = k then (k', v) :: rest else (k', v') :: setKey rest k v

/-- Python dict lookup `d[k]`, `none` modelling a `KeyError`. -/
def lookupKey : List (String × Json) → String → Option Json
  | [], _ => none
  | (k', v') :: rest, k => if k' = k then some v' else lookupKey rest k

mutual

/-- Python structural equality `==` on JSON-shaped values, used by `in` and
`list.remove`. -/
def jeq : Json → Json → Bool
  | .null, .null => true
  | .bool a, .bool b => a == b
  | .num a, .num b => a == b
  | .str a, .str b => a == b
  | .arr a, .arr b => jeqList a b
  | .obj a, .obj b => jeqObj a b
  | _, _ => false

/-- Elementwise `==` on Python lists. -/
def jeqList : List Json → List Json → Bool
  | [], [] => true
  | a :: as, b :: bs => jeq a b && jeqList as bs
  | _, _ => false

/-- Elementwise `==` on Python dicts-as-lists. -/
def jeqObj : List (String × Json) → List (String × Json) → Bool
  | [], [] => true
  | (k, a) :: as, (l, b) :: bs => k == l && jeq a b && jeqObj as bs
  | _, _ => false

end

/-- Python `x in l` for a list. -/
def jmem (x : Json) (l : List Json) : Bool :=
  l.any (fun y => jeq x y)

/-- Python `l.remove(x)`: drop the first element equal to `x`. -/
def removeFirst : List Json → Json → List Json
  | [], _ => []
  | y :: rest, x => if jeq x y then rest else y :: removeFirst rest x

/-- Python truthiness `bool(value)` for JSON-shaped values. -/
def truthy : Json → Bool
  | .null => false
  | .bool b => b
  | .num n => n != 0
  | .str s => !(s.isEmpty)
  | .arr l => !(l.isEmpty)
  | .obj l => !(l.isEmpty)

/-- Python `len(value)`; `none` models a `TypeError` on unsized values. -/
def pyLen : Json → Option Nat
  | .str s => some s.length
  | .arr l => some l.length
  | .obj l => some l.length
  | _ => none

/-- Python `value[0]`: first list element, first character of a string (as a
one-character string); `none` models `IndexError` / `KeyError` (a dict indexed
by `0` when all its keys are strings). -/
def pyIndex0 : Json → Option Json
  | .arr (x :: _) => some x
  | .str s => if s.isEmpty then none else some (.str (s.take 1))
  | _ => none

/-- Schema-type name of a primitive, `type_dict_` of api.py line 33. -/
def typeDict : Prim → String
  | .str => "string"
  | .int => "number"
  | .float => "number"
  | .bool => "boolean"

/-- Metadata loop of the `Annotated` branch, api.py lines 44-50: keys are
applied in declaration order; `required` sets the running flag via truthiness
and is not copied; every other key is copied into the schema object, and
`default` additionally forces the flag to false. -/
def applyMeta : List (String × Json) → List (String × Json) → Bool →
    List (String × Json) × Bool
  | [], s, r => (s, r)
  | (k, v) :: rest, s, r =>
      if k = "required" then applyMeta rest s (truthy v)
      else applyMeta rest (setKey s k v) (if k = "default" then false else r)

mutual

/-- `create_schema_object_from_annotation` (api.py lines 14-78).
The result is `(schema_object, required)`; `none` models a raised exception:
`ValueError` for an unsupported annotation, and in the `Union` branch a
`KeyError`/`AttributeError`/`TypeError` when `schema_object["type"]` is
missing, not a list, or not sized. -/
def compile : TypeDesc → Option (List (String × Json) × Bool)
  | .record fields =>
      if fields.isEmpty then some ([], false)
      else
        match compileFields fields [] [] false with
        | none => none
        | some (props, reqs, r) =>
            some ([("type", Json.str "object"),
                   ("properties", Json.obj props),
                   ("required", Json.arr (reqs.map Json.str))], r)
  | .annotated b md =>
      match b with
      | .prim p => some (applyMeta md [("type", Json.str (typeDict p))] false)
      | b =>
          match compile b with
          | none => none
          | some (s, r) => some (applyMeta md s r)
  | .literal vals => some ([("enum", Json.arr vals)], true)
  | .union branches =>
      match compileUnion branches [("type", Json.arr [])] false with
      | none => none
      | some (so, r) =>
          match lookupKey so "type" with
          | none => none
          | some t =>
              match pyLen t with
              | none => none
              | some n =>
                  if n = 1 then
                    match pyIndex0 t with
                    | none => none
                    | some x => some (setKey so "type" x, r)
                  else some (so, r)
  | .seq child =>
      match compile child with
      | none => none
      | some (s, r) =>
          some ([("type", Json.str "array"), ("items", Json.obj s)], r)
  | .prim p => some ([("type", Json.str (typeDict p))], true)
  | .noneType => none

/-- Field loop of the record branch, api.py lines 26-30: each child is
compiled into `properties`, its name appended to `required` when the child's
verdict is true, and the loop variable `required` is overwritten each
iteration. -/
def compileFields : List (String × TypeDesc) → List (String × Json) →
    List String → Bool → Option (List (String × Json) × List String × Bool)
  | [], props, reqs, r => some (props, reqs, r)
  | (k, d) :: rest, props, reqs, r =>
      match compile d with
      | none => none
      | some (s, req) =>
          compileFields rest (setKey props k (Json.obj s))
            (if req then reqs ++ [k] else reqs) req

/-- Branch loop of the union branch, api.py lines 58-64: `type(None)` clears
`required`, a primitive branch appends its schema-type name to
`schema_object["type"]` (failing when that entry is not a list), and any other
branch is compiled recursively, its result replacing both the schema object
and `required`. -/
def compileUnion : List TypeDesc → List (String × Json) → Bool →
    Option (List (String × Json) × Bool)
  | [], so, r => some (so, r)
  | b :: rest, so, r =>
      match b with
      | .noneType => compileUnion rest so false
      | .prim p =>
          match lookupKey so "type" with
          | some (Json.arr l) =>
              compileUnion rest
                (setKey so "type" (Json.arr (l ++ [Json.str (typeDict p)]))) r
          | _ => none
      | b =>
          match compile b with
          | none => none
          | some (s, req) => compileUnion rest s req

end

/-- Resolution of the base of an `Annotated` annotation, api.py lines 38-42:
a primitive base sets `type` directly and leaves `required` at its initial
`False`; any other base is compiled recursively. -/
def annotBase : TypeDesc → Option (List (String × Json) × Bool)
  | .prim p => some ([("type", Json.str (typeDict p))], false)
  | b => compile b

/-- `ShellFunctionDescriptor.get_args_json_schema` (api.py lines 93-112),
with the signature introspection abstracted as the parameter list
`params` (name, annotation, in declaration order) and `defaults` (name,
declared default value, in declaration order): compile the parameter dict as a
record, then for each defaulted parameter set `default` inside its compiled
sub-schema and remove its name from the top-level `required` list when
present. -/
def get_args_json_schema (params : List (String × TypeDesc))
    (defaults : List (String × Json)) : Option (List (String × Json)) :=
  match compile (.record params) with
  | none => none
  | some (schema, _) =>
      defaults.foldlM (fun sch kd =>
        match lookupKey sch "properties" with
        | some (Json.obj pl) =>
            match lookupKey pl kd.1 with
            | some (Json.obj subl) =>
                let pl' := setKey pl kd.1 (Json.obj (setKey subl "default" kd.2))
                let sch' := setKey sch "properties" (Json.obj pl')
                match lookupKey sch' "required" with
                | some (Json.arr rl) =>
                    if jmem (Json.str kd.1) rl then
                      some (setKey sch' "required"
                        (Json.arr (removeFirst rl (Json.str kd.1))))
                    else some sch'
                | _ => none
            | _ => none
        | _ => none) schema

/-- `ShellFunctionDescriptor.has_args` (api.py lines 90-91):
`"required" in schema and len(schema["required"]) > 0`; `none` models a
`TypeError` from `len` on an unsized value. -/
def has_args (schema : List (String × Json)) : Option Bool :=
  match lookupKey schema "required" with
  | none => some false
  | some v =>
      match pyLen v with
      | none => none
      | some n => some (decide (0 < n))

/-- Dispatch body of `WebService.flask_app`'s endpoint (api.py lines 218-221),
with the `jsonschema.validate` facility abstracted as `check` (`some e` = a
raised `ValidationError` with diagnostic `e`). The first component records
every invocation of the wrapped callable and the argument mode it was invoked
with (`some args` = keyword-expanded, `none` = no arguments). -/
def flaskDispatch (validateSchema : Bool) (check : Json → Option String)
    (hasArgs : Bool) (f : Option Json → Json) (jsonArgs : Json) :
    List (Option Json) × Except String Json :=
  if validateSchema then
    match check jsonArgs with
    | some e => ([], .error e)
    | none =>
        if hasArgs then ([some jsonArgs], .ok (f (some jsonArgs)))
        else ([none], .ok (f none))
  else
    if hasArgs then ([some jsonArgs], .ok (f (some jsonArgs)))
    else ([none], .ok (f none))

/-- Invocation step of `CommandLineApp.exec` (api.py line 179):
`f(**function_args) if function_args is not None else f()` — the decision is
on the parsed value being `None`, not on `has_args`. -/
def cliDispatch (functionArgs : Json) (f : Option Json → Json) :
    List (Option Json) × Json :=
  match functionArgs with
  | .null => ([none], f none)
  | v => ([some v], f (some v))

/-- `json_or_json_file` (api.py lines 157-171): `parsed = none` models raw
input that is neither valid JSON nor a readable JSON file; when
`validateSchema` is set, a validator diagnostic becomes an
`argparse.ArgumentTypeError`. -/
def json_or_json_file (parsed : Option Json) (validateSchema : Bool)
    (check : Json → Option String) : Except String Json :=
  match parsed with
  | none => .error "Not valid json or a not valid json file"
  | some v =>
      if validateSchema then
        match check v with
        | some e => .error e
        | none => .ok v
      else .ok v

/-- `CommandLineApp.exec`'s end-to-end handling of a supplied `args` value
(api.py lines 157-179) in the case where the dispatched operation is the last
one registered, so that the late-bound callback state (see
`cliCallbackCheck`) is that operation's own flag and schema, abstracted here
as `validateSchema` and `check`: the value goes through `json_or_json_file`
(argparse aborts on its error, so the function is never called), then the
invocation step runs. -/
def cliExec (parsed : Option Json) (validateSchema : Bool)
    (check : Json → Option String) (f : Option Json → Json) :
    List (Option Json) × Except String Json :=
  match json_or_json_file parsed validateSchema check with
  | .error e => ([], .error e)
  | .ok v =>
      let c := cliDispatch v f
      (c.1, .ok c.2)

/-- One registered operation as the loop of `CommandLineApp.exec`
(api.py lines 152-155) sees it: its `validate_schema` flag and its
`get_args_json_schema()` result, in registration order. -/
structure CliOp where
  vs : Bool
  schema : List (String × Json)

/-- Validation performed by the `json_or_json_file` callback at
`parse_args` time (api.py lines 166-170). The callback is a closure over the
loop variables `function_descriptor` and `args_json_schema` of
`CommandLineApp.exec`; Python closures capture variables, not values, and
`parse_args` runs after the loop has finished, so whichever subparser fires,
the flag consulted and the schema validated against are those of the LAST
registered operation. `validate` abstracts `jsonschema.validate`
(`some e` = a raised `ValidationError` with diagnostic `e`). -/
def cliCallbackCheck (ops : List CliOp)
    (validate : List (String × Json) → Json → Option String) (v : Json) :
    Option String :=
  match ops.getLast? with
  | none => none
  | some op => if op.vs then validate op.schema v else none

/-- `CommandLineApp.exec`'s end-to-end handling of a supplied `args` value
(api.py lines 157-179) for a chosen operation `f` when the registered
operations are `ops`: parse (`none` models invalid JSON input), run the
late-bound callback validation, then the invocation step. -/
def cli_exec_supplied (ops : List CliOp)
    (validate : List (String × Json) → Json → Option String)
    (f : Option Json → Json) (parsed : Option Json) :
    List (Option Json) × Except String Json :=
  match parsed with
  | none => ([], .error "Not valid json or a not valid json file")
  | some v =>
      match cliCallbackCheck ops validate v with
      | some e => ([], .error e)
      | none =>
          let c := cliDispatch v f
          (c.1, .ok c.2)

/-- Collapse step of the union branch, api.py lines 65-66, specialised to a
list-valued `type` entry: a one-element list becomes its element. -/
def collapseT : List Json → Json
  | [x] => x
  | l => Json.arr l

/-- Union branches that are neither the absence marker `type(None)` nor a key
of `type_dict_`: the ones that take the recursive `else` arm of the branch
loop (api.py lines 63-64). -/
def isOtherBranch : TypeDesc → Bool
  | .noneType => false
  | .prim _ => false
  | _ => true

/-! ## Lemmas about the embedded operations -/

theorem lookupKey_setKey_isSome (m : List (String × Json)) (k0 k : String)
    (v : Json) :
    (lookupKey (setKey m k0 v) k).isSome = true ↔
      k = k0 ∨ (lookupKey m k).isSome = true := by
  induction m with
  | nil =>
      simp only [setKey, lookupKey]
      by_cases h : k0 = k
      · subst h; simp
      · simp [h, Ne.symm h]
  | cons kv rest ih =>
      obtain ⟨k', v'⟩ := kv
      by_cases hk0 : k' = k0
      · subst hk0
        by_cases hk : k' = k
        · subst hk; simp [setKey, lookupKey]
        · have hk' : ¬k = k' := fun h => hk h.symm
          simp [setKey, lookupKey, hk, hk']
      · by_cases hk : k' = k
        · subst hk; simp [setKey, lookupKey, hk0]
        · simp only [setKey, if_neg hk0, lookupKey, if_neg hk]
          exact ih

theorem lookupKey_setKey_self (m : List (String × Json)) (k : String)
    (v : Json) : lookupKey (setKey m k v) k = some v := by
  induction m with
  | nil => simp [setKey, lookupKey]
  | cons kv rest ih =>
      obtain ⟨k', v'⟩ := kv
      by_cases hk : k' = k
      · subst hk; simp [setKey, lookupKey]
      · simp [setKey, lookupKey, hk, ih]

theorem compileUnion_append (l₁ l₂ : List TypeDesc)
    (so : List (String × Json)) (r : Bool) :
    compileUnion (l₁ ++ l₂) so r =
      (compileUnion l₁ so r).bind (fun p => compileUnion l₂ p.1 p.2) := by
  induction l₁ generalizing so r with
  | nil => simp [compileUnion]
  | cons b rest ih =>
      cases b with
      | noneType => simpa [compileUnion] using ih so false
      | prim p =>
          simp only [List.cons_append, compileUnion]
          cases h : lookupKey so "type" with
          | none => simp
          | some t => cases t <;> simp [ih]
      | record fields =>
          simp only [List.cons_append, compileUnion]
          cases h : compile (.record fields) with
          | none => simp
          | some q => simp [ih]
      | seq child =>
          simp only [List.cons_append, compileUnion]
          cases h : compile (.seq child) with
          | none => simp
          | some q => simp [ih]
      | union bs =>
          simp only [List.cons_append, compileUnion]
          cases h : compile (.union bs) with
          | none => simp
          | some q => simp [ih]
      | literal vals =>
          simp only [List.cons_append, compileUnion]
          cases h : compile (.literal vals) with
          | none => simp
          | some q => simp [ih]
      | annotated base md =>
          simp only [List.cons_append, compileUnion]
          cases h : compile (.annotated base md) with
          | none => simp
          | some q => simp [ih]

theorem compileUnion_trailing (post : List TypeDesc)
    (hpost : ∀ b ∈ post, b = TypeDesc.noneType ∨ ∃ p, b = TypeDesc.prim p) :
    ∀ so so' r', compileUnion post so false = some (so', r') → r' = false := by
  induction post with
  | nil =>
      intro so so' r' h
      simp only [compileUnion, Option.some.injEq, Prod.mk.injEq] at h
      exact h.2.symm
  | cons b rest ih =>
      intro so so' r' h
      have hb := hpost b (List.mem_cons_self b rest)
      have hrest : ∀ b ∈ rest, b = TypeDesc.noneType ∨ ∃ p, b = TypeDesc.prim p :=
        fun c hc => hpost c (List.mem_cons_of_mem _ hc)
      rcases hb with rfl | ⟨p, rfl⟩
      · simp only [compileUnion] at h
        exact ih hrest _ _ _ h
      · simp only [compileUnion] at h
        cases ht : lookupKey so "type" with
        | none => rw [ht] at h; simp at h
        | some t =>
            rw [ht] at h
            cases t <;> simp at h
            exact ih hrest _ _ _ h

theorem compileUnion_prims (ps : List Prim) :
    ∀ acc r, compileUnion (ps.map TypeDesc.prim) [("type", Json.arr acc)] r =
      some ([("type",
        Json.arr (acc ++ ps.map (fun p => Json.str (typeDict p))))], r) := by
  induction ps with
  | nil => intro acc r; simp [compileUnion]
  | cons p ps ih =>
      intro acc r
      simp [compileUnion, lookupKey, setKey, ih]

theorem compileUnion_other_cons (b : TypeDesc) (rest : List TypeDesc)
    (so : List (String × Json)) (r : Bool) (hb : isOtherBranch b = true) :
    compileUnion (b :: rest) so r =
      (compile b).bind (fun p => compileUnion rest p.1 p.2) := by
  cases b with
  | noneType => simp [isOtherBranch] at hb
  | prim p => simp [isOtherBranch] at hb
  | record fields =>
      cases hcb : compile (.record fields) <;> simp [compileUnion, hcb]
  | seq child =>
      cases hcb : compile (.seq child) <;> simp [compileUnion, hcb]
  | union bs =>
      cases hcb : compile (.union bs) <;> simp [compileUnion, hcb]
  | literal vals =>
      cases hcb : compile (.literal vals) <;> simp [compileUnion, hcb]
  | annotated base md =>
      cases hcb : compile (.annotated base md) <;> simp [compileUnion, hcb]

theorem compile_annotated (b : TypeDesc) (md : List (String × Json))
    (s : List (String × Json)) (r : Bool) (h : annotBase b = some (s, r)) :
    compile (.annotated b md) = some (applyMeta md s r) := by
  cases b with
  | prim p =>
      simp only [annotBase, Option.some.injEq, Prod.mk.injEq] at h
      obtain ⟨rfl, rfl⟩ := h
      rfl
  | noneType => simp [annotBase, compile] at h
  | record fields =>
      simp only [annotBase] at h; rw [compile, h]
      intro p hp; cases hp
  | seq child =>
      simp only [annotBase] at h; rw [compile, h]
      intro p hp; cases hp
  | union bs =>
      simp only [annotBase] at h; rw [compile, h]
      intro p hp; cases hp
  | literal vals =>
      simp only [annotBase] at h; rw [compile, h]
      intro p hp; cases hp
  | annotated base imd =>
      simp only [annotBase] at h; rw [compile, h]
      intro p hp; cases hp

theorem compile_union_prims (ps : List Prim) :
    compile (.union (ps.map TypeDesc.prim)) =
      some ([("type",
        collapseT (ps.map (fun p => Json.str (typeDict p))))], false) := by
  have h := compileUnion_prims ps [] false
  simp only [List.nil_append] at h
  simp only [compile, h]
  cases hn : ps.map (fun p => Json.str (typeDict p)) with
  | nil => simp [lookupKey, pyLen, collapseT]
  | cons x t =>
      cases t with
      | nil => simp [lookupKey, pyLen, pyIndex0, setKey, collapseT]
      | cons y t2 => simp [lookupKey, pyLen, pyIndex0, setKey, collapseT]

theorem compileFields_mem_req (fields : List (String × TypeDesc)) :
    ∀ props reqs r props' reqs' r',
      compileFields fields props reqs r = some (props', reqs', r') →
      ∀ k, k ∈ reqs' ↔
        k ∈ reqs ∨ ∃ d s, (k, d) ∈ fields ∧ compile d = some (s, true) := by
  induction fields with
  | nil =>
      intro props reqs r props' reqs' r' h k
      simp only [compileFields, Option.some.injEq, Prod.mk.injEq] at h
      obtain ⟨-, h2, -⟩ := h
      simp [← h2]
  | cons kd rest ih =>
      obtain ⟨k0, d0⟩ := kd
      intro props reqs r props' reqs' r' h k
      simp only [compileFields] at h
      cases hc : compile d0 with
      | none => rw [hc] at h; simp at h
      | some q =>
          obtain ⟨s0, req0⟩ := q
          rw [hc] at h
          rw [ih _ _ _ _ _ _ h k]
          cases req0 with
          | false =>
              simp only [Bool.false_eq_true, if_neg]
              constructor
              · rintro (hk | ⟨d, s, hd, hcd⟩)
                · exact Or.inl hk
                · exact Or.inr ⟨d, s, List.mem_cons_of_mem _ hd, hcd⟩
              · rintro (hk | ⟨d, s, hd, hcd⟩)
                · exact Or.inl hk
                · rcases List.mem_cons.mp hd with heq | hd'
                  · injection heq with hk0 hd0
                    subst hk0; subst hd0
                    rw [hc] at hcd
                    simp at hcd
                  · exact Or.inr ⟨d, s, hd', hcd⟩
          | true =>
              simp only [if_pos]
              constructor
              · rintro (hk | ⟨d, s, hd, hcd⟩)
                · rcases List.mem_append.mp hk with hk1 | hk2
                  · exact Or.inl hk1
                  · rcases List.mem_singleton.mp hk2 with rfl
                    exact Or.inr ⟨d0, s0, List.mem_cons_self _ _, hc⟩
                · exact Or.inr ⟨d, s, List.mem_cons_of_mem _ hd, hcd⟩
              · rintro (hk | ⟨d, s, hd, hcd⟩)
                · exact Or.inl (List.mem_append.mpr (Or.inl hk))
                · rcases List.mem_cons.mp hd with heq | hd'
                  · injection heq with hk0 hd0
                    subst hk0; subst hd0
                    exact Or.inl (List.mem_append.mpr (Or.inr (List.mem_singleton.mpr rfl)))
                  · exact Or.inr ⟨d, s, hd', hcd⟩

theorem compileFields_props (fields : List (String × TypeDesc)) :
    ∀ props reqs r props' reqs' r',
      compileFields fields props reqs r = some (props', reqs', r') →
      ∀ k, (lookupKey props' k).isSome = true ↔
        (lookupKey props k).isSome = true ∨ ∃ d, (k, d) ∈ fields := by
  induction fields with
  | nil =>
      intro props reqs r props' reqs' r' h k
      simp only [compileFields, Option.some.injEq, Prod.mk.injEq] at h
      obtain ⟨h1, -, -⟩ := h
      simp [← h1]
  | cons kd rest ih =>
      obtain ⟨k0, d0⟩ := kd
      intro props reqs r props' reqs' r' h k
      simp only [compileFields] at h
      cases hc : compile d0 with
      | none => rw [hc] at h; simp at h
      | some q =>
          obtain ⟨s0, req0⟩ := q
          rw [hc] at h
          rw [ih _ _ _ _ _ _ h k, lookupKey_setKey_isSome]
          constructor
          · rintro ((rfl | hp) | ⟨d, hd⟩)
            · exact Or.inr ⟨d0, List.mem_cons_self _ _⟩
            · exact Or.inl hp
            · exact Or.inr ⟨d, List.mem_cons_of_mem _ hd⟩
          · rintro (hp | ⟨d, hd⟩)
            · exact Or.inl (Or.inr hp)
            · rcases List.mem_cons.mp hd with heq | hd'
              · injection heq with hk0 hd0
                exact Or.inl (Or.inl hk0)
              · exact Or.inr ⟨d, hd'⟩

theorem compileFields_last (fields : List (String × TypeDesc)) :
    ∀ k d props reqs r props' reqs' r',
      compileFields (fields ++ [(k, d)]) props reqs r =
        some (props', reqs', r') →
      ∃ s, compile d = some (s, r') := by
  induction fields with
  | nil =>
      intro k d props reqs r props' reqs' r' h
      simp only [List.nil_append, compileFields] at h
      cases hc : compile d with
      | none => rw [hc] at h; simp at h
      | some q =>
          obtain ⟨s, req⟩ := q
          rw [hc] at h
          simp only [compileFields, Option.some.injEq, Prod.mk.injEq] at h
          obtain ⟨-, -, hreq⟩ := h
          subst hreq
          exact ⟨s, rfl⟩
  | cons kd rest ih =>
      obtain ⟨k0, d0⟩ := kd
      intro k d props reqs r props' reqs' r' h
      simp only [List.cons_append, compileFields] at h
      cases hc : compile d0 with
      | none => rw [hc] at h; simp at h
      | some q =>
          obtain ⟨s0, req0⟩ := q
          rw [hc] at h
          exact ih _ _ _ _ _ _ _ _ h

theorem compile_union_snd (branches : List TypeDesc)
    (so₁ : List (String × Json)) (r₁ : Bool) (sch : List (String × Json))
    (r : Bool)
    (hu : compileUnion branches [("type", Json.arr [])] false = some (so₁, r₁))
    (h : compile (.union branches) = some (sch, r)) : r = r₁ := by
  rw [compile, hu] at h
  simp only [] at h
  split at h
  · simp at h
  · split at h
    · simp at h
    · split at h
      · split at h
        · simp at h
        · simp only [Option.some.injEq, Prod.mk.injEq] at h
          exact h.2.symm
      · simp only [Option.some.injEq, Prod.mk.injEq] at h
        exact h.2.symm

/-! ## Claim theorems -/

/-- C1, counterexample: for the `Annotated` descriptor whose metadata declares
`default` first and `required: true` second, compile returns required = true —
the claim's "required = false regardless of the order in which the two
metadata keys are declared" fails. -/
theorem annotated_required_after_default_counterexample :
    compile (.annotated (.prim .str)
        [("default", Json.str "d"), ("required", Json.bool true)])
      = some ([("type", Json.str "string"), ("default", Json.str "d")], true) ∧
    (compile (.annotated (.prim .str)
        [("default", Json.str "d"), ("required", Json.bool true)])).map Prod.snd
      ≠ some false :=
  ⟨rfl, by decide⟩

/-- C1 (amended): for every `Annotated` descriptor whose metadata supplies
both `default` and `required: true`, the declaration order decides: when
`default` is declared after `required`, compile returns required = false (the
default wins); when `required: true` is declared after `default`, compile
returns required = true. -/
theorem annotated_default_required_order (b : TypeDesc)
    (s : List (String × Json)) (r : Bool) (v : Json)
    (h : annotBase b = some (s, r)) :
    (compile (.annotated b [("required", Json.bool true), ("default", v)])).map
        Prod.snd = some false ∧
    (compile (.annotated b [("default", v), ("required", Json.bool true)])).map
        Prod.snd = some true := by
  constructor
  · rw [compile_annotated b _ s r h]
    simp [applyMeta, truthy]
  · rw [compile_annotated b _ s r h]
    simp [applyMeta, truthy]

/-- C1, witness for the amended theorem at `Annotated[int, ...]` with default
value `0`. -/
theorem annotated_default_required_order_witness :
    (compile (.annotated (.prim .int)
        [("required", Json.bool true), ("default", Json.num 0)])).map Prod.snd
      = some false ∧
    (compile (.annotated (.prim .int)
        [("default", Json.num 0), ("required", Json.bool true)])).map Prod.snd
      = some true :=
  annotated_default_required_order (.prim .int)
    [("type", Json.str "number")] false (Json.num 0) rfl

/-- C2, counterexample: the union `Union[None, {x: int}]` contains the absence
marker, yet compile returns required = true, because the record branch is
processed after the marker and overwrites the required flag with its own
verdict. -/
theorem union_marker_record_required_counterexample :
    compile (.union [.noneType, .record [("x", .prim .int)]])
      = some ([("type", Json.str "object"),
               ("properties", Json.obj [("x", Json.obj [("type", Json.str "number")])]),
               ("required", Json.arr [Json.str "x"])], true) ∧
    (compile (.union [.noneType, .record [("x", .prim .int)]])).map Prod.snd
      ≠ some false :=
  ⟨rfl, by decide⟩

/-- C2 (amended): for every Union descriptor containing the absence marker,
compile returns required = false provided every branch after the marker is
the marker itself or a bare primitive (such branches never set required back
to true); a non-primitive branch after the marker can reset it. -/
theorem union_marker_required_false_of_trailing_primitives
    (pre post : List TypeDesc) (sch : List (String × Json)) (r : Bool)
    (hpost : ∀ b ∈ post, b = TypeDesc.noneType ∨ ∃ p, b = TypeDesc.prim p)
    (h : compile (.union (pre ++ TypeDesc.noneType :: post)) = some (sch, r)) :
    r = false := by
  rcases huf : compileUnion (pre ++ TypeDesc.noneType :: post)
      [("type", Json.arr [])] false with _ | ⟨so₁, r₁⟩
  · rw [compile, huf] at h; simp at h
  · have hr := compile_union_snd _ _ _ _ _ huf h
    rw [compileUnion_append] at huf
    rcases hp : compileUnion pre [("type", Json.arr [])] false with _ | ⟨so₀, r₀⟩
    · rw [hp] at huf; simp at huf
    · rw [hp] at huf
      simp only [Option.some_bind] at huf
      rw [show compileUnion (TypeDesc.noneType :: post) so₀ r₀
            = compileUnion post so₀ false from rfl] at huf
      rw [hr]
      exact compileUnion_trailing post hpost so₀ so₁ r₁ huf

/-- C2, witness for the amended theorem at `Union[None, str]`, which compiles
to `({"type": "string"}, required = false)`. -/
theorem union_marker_required_false_witness :
    compile (.union (([] : List TypeDesc) ++ TypeDesc.noneType :: [TypeDesc.prim .str]))
      = some ([("type", Json.str "string")], false) ∧ (false : Bool) = false :=
  ⟨rfl,
   union_marker_required_false_of_trailing_primitives []
     [.prim .str] [("type", Json.str "string")] false
     (by intro b hb
         rcases List.mem_singleton.mp hb with rfl
         exact Or.inr ⟨.str, rfl⟩)
     rfl⟩

/-- C3, counterexample: compile does not complete for every union containing
a non-marker non-primitive branch — on `Union[None, Literal["a"]]` the
replacing branch's schema `{"enum": ["a"]}` has no `type` entry, so the
post-loop access `schema_object["type"]` raises a `KeyError` (modelled as
`none`). -/
theorem union_literal_branch_crash_counterexample :
    compile (.union [.noneType, .literal [Json.str "a"]]) = none := rfl

/-- C3 (amended): for every Union descriptor whose last branch is a
non-marker non-primitive branch, if the loop over the earlier branches and
the recursive compile of that branch succeed, the branch's compiled schema
replaces the whole schema object built so far and its required verdict is
taken over; the final collapse to a bare scalar happens exactly on a
one-element `type` list, and when the `type` entry the branch supplies has
any other Python length the branch's schema is returned unchanged.
Compilation does not complete for every such union: it fails when the
replacing schema lacks a sized `type` entry. -/
theorem union_last_other_branch_wins (pre : List TypeDesc) (b : TypeDesc)
    (q : List (String × Json) × Bool) (s : List (String × Json)) (r : Bool)
    (t : Json) (hb : isOtherBranch b = true)
    (hpre : compileUnion pre [("type", Json.arr [])] false = some q)
    (hcb : compile b = some (s, r))
    (ht : lookupKey s "type" = some t) :
    (∀ n, pyLen t = some n → n ≠ 1 →
      compile (.union (pre ++ [b])) = some (s, r)) ∧
    (∀ x, t = Json.arr [x] →
      compile (.union (pre ++ [b])) = some (setKey s "type" x, r)) := by
  have hu : compileUnion (pre ++ [b]) [("type", Json.arr [])] false
      = some (s, r) := by
    rw [compileUnion_append, hpre]
    simp only [Option.some_bind]
    rw [compileUnion_other_cons b [] q.1 q.2 hb, hcb]
    simp [compileUnion]
  constructor
  · intro n hn hne
    simp only [compile, hu, ht, hn, if_neg hne]
  · intro x hx
    subst hx
    simp only [compile, hu, ht, pyLen, pyIndex0]
    simp

/-- C3, witness for the amended theorem: the union whose single branch is the
record `{x: int}` compiles to that record's schema and required verdict, with
no collapse (the `type` entry is the six-character string `"object"`). -/
theorem union_last_other_branch_wins_witness :
    compile (.union (([] : List TypeDesc) ++ [TypeDesc.record [("x", .prim .int)]]))
      = some ([("type", Json.str "object"),
               ("properties", Json.obj [("x", Json.obj [("type", Json.str "number")])]),
               ("required", Json.arr [Json.str "x"])], true) :=
  (union_last_other_branch_wins [] (.record [("x", .prim .int)])
    ([("type", Json.arr [])], false)
    [("type", Json.str "object"),
     ("properties", Json.obj [("x", Json.obj [("type", Json.str "number")])]),
     ("required", Json.arr [Json.str "x"])]
    true (Json.str "object") rfl rfl rfl rfl).1 6 rfl (by decide)

/-- C4, counterexample: the union `Union[int, float]`, whose two branches both
map to the scalar name "number", produces the `type` list
`["number", "number"]` — there is no membership check, duplicates are kept,
contradicting the claimed deduplication. -/
theorem union_primitive_dedup_counterexample :
    compile (.union [.prim .int, .prim .float])
      = some ([("type", Json.arr [Json.str "number", Json.str "number"])], false) ∧
    Json.arr [Json.str "number", Json.str "number"] ≠ Json.arr [Json.str "number"] :=
  ⟨rfl, by simp⟩

/-- C4 (amended): in a Union descriptor each branch whose base type maps
directly to a primitive schema type appends that scalar type name to the
schema's `type` list unconditionally — duplicates are preserved in branch
order, with no deduplication. For a union of only primitive branches the
`type` entry is exactly the branchwise list of scalar names, collapsed to a
bare scalar when the list has one element. -/
theorem union_all_primitives_type_list (ps : List Prim) :
    compile (.union (ps.map TypeDesc.prim)) =
      some ([("type", collapseT (ps.map (fun p => Json.str (typeDict p))))],
        false) :=
  compile_union_prims ps

/-- C5: compiling the parameter record `{a: str, b: float}` with a declared
default `0` for `b` through `get_args_json_schema` yields exactly the claimed
schema: the default is injected into b's sub-schema and "b" is removed from
the `required` list. -/
theorem get_args_json_schema_roundtrip :
    get_args_json_schema [("a", .prim .str), ("b", .prim .float)]
        [("b", Json.num 0)]
      = some [("type", Json.str "object"),
              ("properties", Json.obj
                [("a", Json.obj [("type", Json.str "string")]),
                 ("b", Json.obj [("type", Json.str "number"),
                                 ("default", Json.num 0)])]),
              ("required", Json.arr [Json.str "a"])] := rfl

/-- Supporting fact for C6: in the web dispatch path, and in the command-line
path when the dispatched operation's own flag and schema are the ones the
late-bound callback holds (the last registered operation), a validation
failure surfaces the validator's diagnostic as the error and the wrapped
callable is invoked zero times. -/
theorem dispatch_validation_failure_blocks_call
    (check : Json → Option String) (args : Json) (e : String)
    (hasArgs : Bool) (f : Option Json → Json) (h : check args = some e) :
    flaskDispatch true check hasArgs f args = ([], Except.error e) ∧
    cliExec (some args) true check f = ([], Except.error e) := by
  refine ⟨?_, ?_⟩ <;> simp [flaskDispatch, cliExec, json_or_json_file, h]

/-- Closed instance of `dispatch_validation_failure_blocks_call` at a
concrete failing validator. -/
theorem dispatch_validation_failure_blocks_call_witness :
    flaskDispatch true (fun _ => some "invalid") true (fun _ => Json.null)
        Json.null = ([], Except.error "invalid") ∧
    cliExec (some Json.null) true (fun _ => some "invalid")
        (fun _ => Json.null) = ([], Except.error "invalid") :=
  dispatch_validation_failure_blocks_call (fun _ => some "invalid") Json.null
    "invalid" true (fun _ => Json.null) rfl

/-- C6, failing input: register operation A (`validate_schema = True`, schema
requiring a numeric `x`) and then operation B (`validate_schema = False`).
Dispatching A with the payload `{"x": "bad"}` — which the validator rejects
against A's schema — nevertheless invokes A with that payload: the
late-bound `json_or_json_file` callback consults B's flag and schema (the
loop variables' final values), so no validation at all is performed, while
the claim (and the CLI's own generated help text, api.py line 173, which
prints A's schema) promises a `ValidationError` and zero invocations. -/
theorem cli_validation_uses_last_registered_schema :
    (fun (sch : List (String × Json)) (_ : Json) =>
        if sch.isEmpty then (none : Option String)
        else some "is not of type number")
      [("type", Json.str "object"),
       ("properties", Json.obj [("x", Json.obj [("type", Json.str "number")])]),
       ("required", Json.arr [Json.str "x"])]
      (Json.obj [("x", Json.str "bad")]) = some "is not of type number" ∧
    cli_exec_supplied
      [⟨true, [("type", Json.str "object"),
               ("properties", Json.obj [("x", Json.obj [("type", Json.str "number")])]),
               ("required", Json.arr [Json.str "x"])]⟩,
       ⟨false, []⟩]
      (fun sch _ =>
        if sch.isEmpty then (none : Option String)
        else some "is not of type number")
      (fun _ => Json.null)
      (some (Json.obj [("x", Json.str "bad")]))
      = ([some (Json.obj [("x", Json.str "bad")])], Except.ok Json.null) :=
  ⟨rfl, rfl⟩

/-- C7, counterexample: a no-parameter operation has `has_args` false, yet the
command-line dispatch with the non-null payload `{"x": 1}` invokes the
operation with the payload expanded as named arguments — the payload is
passed through, not ignored. -/
theorem cli_dispatch_payload_not_ignored_counterexample :
    get_args_json_schema [] [] = some [] ∧
    has_args [] = some false ∧
    cliDispatch (Json.obj [("x", Json.num 1)]) (fun _ => Json.null)
      = ([some (Json.obj [("x", Json.num 1)])], Json.null) ∧
    (cliDispatch (Json.obj [("x", Json.num 1)]) (fun _ => Json.null)).1
      ≠ [none] :=
  ⟨rfl, rfl, rfl, by simp [cliDispatch]⟩

/-- C7 (amended): the Flask dispatch decides the invocation mode by
`has_args()`: false means invoked with no arguments and the payload is
ignored, true means the payload's fields are expanded as named arguments. The
command-line dispatch instead decides by the parsed payload itself: a null or
absent payload means no arguments, and any non-null payload is expanded as
named arguments regardless of `has_args()`. -/
theorem dispatch_invocation_modes (check : Json → Option String) (args : Json)
    (f : Option Json → Json) (h : check args = none) :
    flaskDispatch true check false f args = ([none], Except.ok (f none)) ∧
    flaskDispatch true check true f args
      = ([some args], Except.ok (f (some args))) ∧
    cliDispatch Json.null f = ([none], f none) ∧
    (args ≠ Json.null →
      cliDispatch args f = ([some args], f (some args))) := by
  refine ⟨?_, ?_, rfl, ?_⟩
  · simp [flaskDispatch, h]
  · simp [flaskDispatch, h]
  · intro hne
    cases args with
    | null => exact absurd rfl hne
    | bool b => rfl
    | num n => rfl
    | str s => rfl
    | arr l => rfl
    | obj l => rfl

/-- C7, witness for the amended theorem at a passing validator and the
payload `{"x": 1}`. -/
theorem dispatch_invocation_modes_witness :
    flaskDispatch true (fun _ => none) false (fun _ => Json.null)
        (Json.obj [("x", Json.num 1)]) = ([none], Except.ok Json.null) ∧
    flaskDispatch true (fun _ => none) true (fun _ => Json.null)
        (Json.obj [("x", Json.num 1)])
      = ([some (Json.obj [("x", Json.num 1)])], Except.ok Json.null) ∧
    cliDispatch Json.null (fun _ => Json.null) = ([none], Json.null) ∧
    (Json.obj [("x", Json.num 1)] ≠ Json.null →
      cliDispatch (Json.obj [("x", Json.num 1)]) (fun _ => Json.null)
        = ([some (Json.obj [("x", Json.num 1)])], Json.null)) :=
  dispatch_invocation_modes (fun _ => none) (Json.obj [("x", Json.num 1)])
    (fun _ => Json.null) rfl

/-- C8: for every non-empty Record descriptor that compiles, every name in the
compiled `required` list is a key of the compiled `properties` mapping, and a
name is in `required` exactly when some field of that name has a child whose
compile returned required = true. -/
theorem record_required_subset_properties (fields : List (String × TypeDesc))
    (sch : List (String × Json)) (r : Bool) (hne : fields ≠ [])
    (h : compile (.record fields) = some (sch, r)) :
    ∃ (props : List (String × Json)) (reqs : List String),
      lookupKey sch "properties" = some (Json.obj props) ∧
      lookupKey sch "required" = some (Json.arr (reqs.map Json.str)) ∧
      (∀ k, k ∈ reqs → (lookupKey props k).isSome = true) ∧
      (∀ k, k ∈ reqs ↔ ∃ d s, (k, d) ∈ fields ∧ compile d = some (s, true)) := by
  have hemp : fields.isEmpty = false := by
    cases fields with
    | nil => exact absurd rfl hne
    | cons a l => rfl
  rw [compile] at h
  rw [hemp] at h
  simp only [Bool.false_eq_true, if_false] at h
  rcases hcf : compileFields fields [] [] false with _ | ⟨props, reqs, r'⟩
  · rw [hcf] at h; simp at h
  · rw [hcf] at h
    simp only [Option.some.injEq, Prod.mk.injEq] at h
    obtain ⟨hsch, -⟩ := h
    subst hsch
    refine ⟨props, reqs, rfl, rfl, ?_, ?_⟩
    · intro k hk
      have hmem := compileFields_mem_req fields [] [] false props reqs r' hcf k
      have hprops := compileFields_props fields [] [] false props reqs r' hcf k
      rcases hmem.mp hk with hk0 | ⟨d, s, hd, -⟩
      · exact absurd hk0 (List.not_mem_nil k)
      · exact hprops.mpr (Or.inr ⟨d, hd⟩)
    · intro k
      have hmem := compileFields_mem_req fields [] [] false props reqs r' hcf k
      simpa using hmem

/-- C8, witness at the one-field record `{a: str}`. -/
theorem record_required_subset_properties_witness :
    ∃ (props : List (String × Json)) (reqs : List String),
      lookupKey [("type", Json.str "object"),
                 ("properties", Json.obj [("a", Json.obj [("type", Json.str "string")])]),
                 ("required", Json.arr [Json.str "a"])] "properties"
        = some (Json.obj props) ∧
      lookupKey [("type", Json.str "object"),
                 ("properties", Json.obj [("a", Json.obj [("type", Json.str "string")])]),
                 ("required", Json.arr [Json.str "a"])] "required"
        = some (Json.arr (reqs.map Json.str)) ∧
      (∀ k, k ∈ reqs → (lookupKey props k).isSome = true) ∧
      (∀ k, k ∈ reqs ↔ ∃ d s,
        (k, d) ∈ [("a", TypeDesc.prim .str)] ∧ compile d = some (s, true)) :=
  record_required_subset_properties [("a", .prim .str)]
    [("type", Json.str "object"),
     ("properties", Json.obj [("a", Json.obj [("type", Json.str "string")])]),
     ("required", Json.arr [Json.str "a"])]
    true (by simp) rfl

/-- C9: the required verdict compile returns for a non-empty Record equals the
verdict of its last field's child — the per-field loop variable is returned
unchanged after the loop. -/
theorem record_required_from_last_field (fields : List (String × TypeDesc))
    (k : String) (d : TypeDesc) (sch : List (String × Json)) (r : Bool)
    (h : compile (.record (fields ++ [(k, d)])) = some (sch, r)) :
    ∃ s, compile d = some (s, r) := by
  have hemp : (fields ++ [(k, d)]).isEmpty = false := by simp
  rw [compile] at h
  rw [hemp] at h
  simp only [Bool.false_eq_true, if_false] at h
  rcases hcf : compileFields (fields ++ [(k, d)]) [] [] false
      with _ | ⟨props, reqs, r'⟩
  · rw [hcf] at h; simp at h
  · rw [hcf] at h
    simp only [Option.some.injEq, Prod.mk.injEq] at h
    obtain ⟨-, hr⟩ := h
    rw [← hr]
    exact compileFields_last fields k d [] [] false props reqs r' hcf

/-- C9, witness: the record `{a: str, b: Union[None, int]}` ends in an
optional field, and compile reports the record itself non-required. -/
theorem record_required_from_last_field_witness :
    ∃ s, compile (.union [TypeDesc.noneType, .prim .int]) = some (s, false) :=
  record_required_from_last_field [("a", .prim .str)] "b"
    (.union [.noneType, .prim .int])
    [("type", Json.str "object"),
     ("properties", Json.obj
       [("a", Json.obj [("type", Json.str "string")]),
        ("b", Json.obj [("type", Json.str "number")])]),
     ("required", Json.arr [Json.str "a"])]
    false rfl

/-- C10: a Union descriptor whose branches are all bare primitives (no
absence marker) compiles with required = false — required starts false and
primitive branches never set it. -/
theorem union_of_primitives_not_required (ps : List Prim) :
    (compile (.union (ps.map TypeDesc.prim))).map Prod.snd = some false := by
  rw [compile_union_prims ps]
  rfl

end PyShellCreator
